import Mathlib

/-!
Verification development for `AMQPProcessManagerIPC.py`, a worker-side IPC
client that exchanges newline-terminated JSON-array envelopes with a
supervising process over stdin/stdout.

The embedding models:
* the JSON values exchanged on the wire (`Json`); numbers are modelled as
  arbitrary-precision integers (Python ints); IEEE floats are outside the
  scope of this model,
* Python's `json.dumps` with its default settings (separators `", "` and
  `": "`, `ensure_ascii=True`) as the executable printer `dumps`,
* Python's `json.loads` as the executable fueled parser `loads` (strict
  mode: raw control characters are rejected inside strings; lone
  surrogate escapes, which Lean `Char` cannot represent, are rejected),
* `str.rstrip` / `str.strip` on the relevant whitespace sets,
* the module's functions `_receive_ipc_message`, `_send_ipc_message`,
  `receive_message`, `send_result` and `send_heartbeat`, with the inbound
  stream as a list of pending lines and the outbound stream as the list of
  chunks written so far; each Python exception site gets its own
  constructor of `PyErr`,
* the two-lock concurrency discipline of the outbound channel as a small
  step relation (`SendStep`).
-/

/-- JSON-representable values as exchanged by the IPC layer. Python dicts
are modelled as association lists in insertion order; numbers are Python
ints. -/
inductive Json where
  | null
  | bool (b : Bool)
  | num (n : Int)
  | str (s : String)
  | arr (xs : List Json)
  | obj (ms : List (String × Json))

/-- Opening brace character, written via its code point. -/
def lbrace : Char := Char.ofNat 123

/-- Closing brace character, written via its code point. -/
def rbrace : Char := Char.ofNat 125

/-- Decimal digit character for a value below 10. -/
def digitCh (d : Nat) : Char := Char.ofNat (48 + d)

/-- Lowercase hexadecimal digit character for a value below 16. -/
def hexDig (d : Nat) : Char := if d < 10 then Char.ofNat (48 + d) else Char.ofNat (87 + d)

/-- Test for an ASCII decimal digit. -/
def isDig (c : Char) : Bool := 48 ≤ c.toNat && c.toNat ≤ 57

/-- JSON whitespace as skipped by Python's json decoder: space, tab,
newline, carriage return. -/
def isJsonWs (c : Char) : Bool :=
  c.toNat = 32 || c.toNat = 9 || c.toNat = 10 || c.toNat = 13

/-- Whitespace for Python's `str.strip`/`str.rstrip` with no argument:
space, tab, newline, carriage return, vertical tab, form feed. -/
def isPySpace (c : Char) : Bool :=
  c.toNat = 32 || c.toNat = 9 || c.toNat = 10 || c.toNat = 13 || c.toNat = 11 || c.toNat = 12

/-- Big-endian decimal digits of a natural number; the first argument is
recursion fuel (any value above the number of digits gives the answer). -/
def natCharsAux : Nat → Nat → List Char
  | 0, _ => []
  | f+1, n => if n < 10 then [digitCh n] else natCharsAux f (n / 10) ++ [digitCh (n % 10)]

/-- Big-endian decimal digits of a natural number, as printed by Python's
`str`. -/
def natChars (n : Nat) : List Char := natCharsAux (n + 1) n

/-- Decimal representation of a Python int, as printed by `str`/`json.dumps`. -/
def intChars : Int → List Char
  | .ofNat m => natChars m
  | .negSucc m => '-' :: natChars (m + 1)

/-- Six-character `\uXXXX` escape with lowercase hex digits, as produced by
`json.dumps` with `ensure_ascii=True`. -/
def uEsc (n : Nat) : List Char :=
  ['\\', 'u', hexDig (n / 4096 % 16), hexDig (n / 256 % 16), hexDig (n / 16 % 16), hexDig (n % 16)]

/-- Encoding of one string character by `json.dumps` (default
`ensure_ascii=True`): the two-character escapes for `"`, `\` and the five
control shorthands, printable ASCII verbatim, and `\uXXXX` (with a
surrogate pair above U+FFFF) for everything else. -/
def escChar (c : Char) : List Char :=
  if c = '\"' then ['\\', '\"']
  else if c = '\\' then ['\\', '\\']
  else if c.toNat = 8 then ['\\', 'b']
  else if c.toNat = 9 then ['\\', 't']
  else if c.toNat = 10 then ['\\', 'n']
  else if c.toNat = 12 then ['\\', 'f']
  else if c.toNat = 13 then ['\\', 'r']
  else if 32 ≤ c.toNat && c.toNat ≤ 126 then [c]
  else if c.toNat < 65536 then uEsc c.toNat
  else uEsc (55296 + (c.toNat - 65536) / 1024) ++ uEsc (56320 + (c.toNat - 65536) % 1024)

/-- Encoding of a character sequence by `json.dumps`. -/
def escList : List Char → List Char
  | [] => []
  | c :: cs => escChar c ++ escList cs

/-- Quoted JSON string literal for `s`, as printed by `json.dumps`. -/
def strChars (s : String) : List Char := '\"' :: (escList s.data ++ ['\"'])

mutual

/-- Characters printed by Python's `json.dumps` (default separators
`", "` and `": "`) for one JSON value. -/
def printJ : Json → List Char
  | .null => "null".data
  | .bool true => "true".data
  | .bool false => "false".data
  | .num n => intChars n
  | .str s => strChars s
  | .arr [] => ['[', ']']
  | .arr (x :: xs) => '[' :: (printElems x xs ++ [']'])
  | .obj [] => [lbrace, rbrace]
  | .obj (m :: ms) => lbrace :: (printMems m ms ++ [rbrace])
termination_by v => sizeOf v
decreasing_by all_goals (simp_wf; try omega)

/-- Comma-and-space separated array elements, first element explicit. -/
def printElems : Json → List Json → List Char
  | x, [] => printJ x
  | x, y :: ys => printJ x ++ ',' :: ' ' :: printElems y ys
termination_by x xs => 1 + sizeOf x + sizeOf xs
decreasing_by all_goals (simp_wf; try omega)

/-- Comma-and-space separated object members with `": "` between key and
value, first member explicit. -/
def printMems : String × Json → List (String × Json) → List Char
  | (k, v), [] => strChars k ++ ':' :: ' ' :: printJ v
  | (k, v), m :: ms => strChars k ++ ':' :: ' ' :: printJ v ++ ',' :: ' ' :: printMems m ms
termination_by m ms => 1 + sizeOf m + sizeOf ms
decreasing_by all_goals (simp_wf; try omega)

end

/-- Python's `json.dumps` with default settings, as a Lean string. -/
def dumps (v : Json) : String := String.mk (printJ v)

/-- Drop leading JSON whitespace, as Python's json decoder does between
tokens. -/
def skipWs : List Char → List Char
  | [] => []
  | c :: cs => if isJsonWs c then skipWs cs else c :: cs

/-- Value of one hexadecimal digit character, if any (both cases accepted,
as by Python's json decoder). -/
def hexVal (c : Char) : Option Nat :=
  if 48 ≤ c.toNat && c.toNat ≤ 57 then some (c.toNat - 48)
  else if 97 ≤ c.toNat && c.toNat ≤ 102 then some (c.toNat - 87)
  else if 65 ≤ c.toNat && c.toNat ≤ 70 then some (c.toNat - 55)
  else none

/-- Read exactly four hexadecimal digits, yielding their value and the
remaining input. -/
def readHex4 : List Char → Option (Nat × List Char)
  | c1 :: c2 :: c3 :: c4 :: rest =>
    match hexVal c1, hexVal c2, hexVal c3, hexVal c4 with
    | some h1, some h2, some h3, some h4 => some (((h1 * 16 + h2) * 16 + h3) * 16 + h4, rest)
    | _, _, _, _ => none
  | _ => none

/-- Decode one `\uXXXX` escape (after the `\u` prefix): four hex digits,
with a high surrogate requiring an immediately following low-surrogate
escape (Python recombines the pair). Lone surrogates (representable in
Python strings but not in Lean `Char`) are rejected; `dumps` never
produces them. -/
def parseUEsc (cs : List Char) : Option (Char × List Char) :=
  match readHex4 cs with
  | none => none
  | some (n, cs3) =>
    if 55296 ≤ n && n ≤ 56319 then
      match cs3 with
      | '\\' :: 'u' :: cs4 =>
        match readHex4 cs4 with
        | none => none
        | some (m, cs5) =>
          if 56320 ≤ m && m ≤ 57343 then
            some (Char.ofNat (65536 + (n - 55296) * 1024 + (m - 56320)), cs5)
          else none
      | _ => none
    else if 56320 ≤ n && n ≤ 57343 then none
    else some (Char.ofNat n, cs3)

/-- Parse the body of a JSON string literal (opening quote already
consumed) in Python's strict mode: raw control characters are rejected;
`\uXXXX` escapes are handled by `parseUEsc`. Fueled; one unit of fuel is
spent per decoded character. -/
def parseStrAux : Nat → List Char → List Char → Option (String × List Char)
  | 0, _, _ => none
  | f+1, acc, cs =>
    match cs with
    | [] => none
    | c :: cs1 =>
      if c = '\"' then some (String.mk acc.reverse, cs1)
      else if c = '\\' then
        match cs1 with
        | [] => none
        | e :: cs2 =>
          if e = '\"' then parseStrAux f ('\"' :: acc) cs2
          else if e = '\\' then parseStrAux f ('\\' :: acc) cs2
          else if e = '/' then parseStrAux f ('/' :: acc) cs2
          else if e = 'b' then parseStrAux f (Char.ofNat 8 :: acc) cs2
          else if e = 'f' then parseStrAux f (Char.ofNat 12 :: acc) cs2
          else if e = 'n' then parseStrAux f (Char.ofNat 10 :: acc) cs2
          else if e = 'r' then parseStrAux f (Char.ofNat 13 :: acc) cs2
          else if e = 't' then parseStrAux f (Char.ofNat 9 :: acc) cs2
          else if e = 'u' then
            (parseUEsc cs2).bind (fun p => parseStrAux f (p.1 :: acc) p.2)
          else none
      else if c.toNat < 32 then none
      else parseStrAux f (c :: acc) cs1

/-- Greedily take ASCII digits from the front of the input. -/
def takeDigits : List Char → List Char × List Char
  | [] => ([], [])
  | c :: cs =>
    if isDig c then
      let p := takeDigits cs
      (c :: p.1, p.2)
    else ([], c :: cs)

/-- Numeric value of a big-endian digit list. -/
def digitsVal (ds : List Char) : Nat := ds.foldl (fun a c => 10 * a + (c.toNat - 48)) 0

/-- Parse an unsigned JSON integer: `0` alone, or a nonzero digit followed
by further digits (leading zeros stop the match, as with Python's number
regex). -/
def parseNatTok : List Char → Option (Nat × List Char)
  | [] => none
  | c :: cs =>
    if c = '0' then some (0, cs)
    else if isDig c then
      let p := takeDigits cs
      some (digitsVal (c :: p.1), p.2)
    else none

/-- Parse an optionally signed JSON integer. The model restricts JSON
numbers to integers; fraction and exponent parts (floats) are outside the
model. -/
def parseNum : List Char → Option (Int × List Char)
  | [] => none
  | c :: cs =>
    if c = '-' then (parseNatTok cs).map (fun p => (-(p.1 : Int), p.2))
    else (parseNatTok (c :: cs)).map (fun p => ((p.1 : Int), p.2))

/-- Head and tail of a non-empty character list. -/
def headTail : List Char → Option (Char × List Char)
  | [] => none
  | c :: r => some (c, r)

mutual

/-- Parse one JSON value at the head of the input (no leading whitespace),
mirroring Python's json scanner; fueled on nesting. -/
def parseVal : Nat → List Char → Option (Json × List Char)
  | 0, _ => none
  | f+1, cs =>
    match cs with
    | [] => none
    | c :: cs1 =>
      if c = '\"' then
        (parseStrAux (cs1.length + 1) [] cs1).map (fun p => (Json.str p.1, p.2))
      else if c = '[' then
        (headTail (skipWs cs1)).bind (fun q =>
          if q.1 = ']' then some (.arr [], q.2)
          else (parseElems f (q.1 :: q.2)).map (fun p => (Json.arr p.1, p.2)))
      else if c = lbrace then
        (headTail (skipWs cs1)).bind (fun q =>
          if q.1 = rbrace then some (.obj [], q.2)
          else (parseMems f (q.1 :: q.2)).map (fun p => (Json.obj p.1, p.2)))
      else if c = 'n' then
        match cs1 with
        | 'u' :: 'l' :: 'l' :: r => some (.null, r)
        | _ => none
      else if c = 't' then
        match cs1 with
        | 'r' :: 'u' :: 'e' :: r => some (.bool true, r)
        | _ => none
      else if c = 'f' then
        match cs1 with
        | 'a' :: 'l' :: 's' :: 'e' :: r => some (.bool false, r)
        | _ => none
      else
        (parseNum (c :: cs1)).map (fun p => (Json.num p.1, p.2))

/-- Parse the non-empty element list of a JSON array, up to and including
the closing bracket. -/
def parseElems : Nat → List Char → Option (List Json × List Char)
  | 0, _ => none
  | f+1, cs =>
    (parseVal f cs).bind (fun p =>
      (headTail (skipWs p.2)).bind (fun q =>
        if q.1 = ']' then some ([p.1], q.2)
        else if q.1 = ',' then
          (parseElems f (skipWs q.2)).map (fun z => (p.1 :: z.1, z.2))
        else none))

/-- Parse the non-empty member list of a JSON object, up to and including
the closing brace. Keys must be string literals. -/
def parseMems : Nat → List Char → Option (List (String × Json) × List Char)
  | 0, _ => none
  | f+1, cs =>
    match cs with
    | c0 :: cs1 =>
      if c0 = '\"' then
        (parseStrAux (cs1.length + 1) [] cs1).bind (fun pk =>
          (headTail (skipWs pk.2)).bind (fun q1 =>
            if q1.1 = ':' then
              (parseVal f (skipWs q1.2)).bind (fun pv =>
                (headTail (skipWs pv.2)).bind (fun q2 =>
                  if q2.1 = ',' then
                    (parseMems f (skipWs q2.2)).map (fun z => ((pk.1, pv.1) :: z.1, z.2))
                  else if q2.1 = rbrace then some ([(pk.1, pv.1)], q2.2)
                  else none))
            else none))
      else none
    | [] => none

end

/-- Python's `json.loads`: skip surrounding whitespace, parse exactly one
JSON value, reject trailing garbage. `none` models a raised
`ValueError`. -/
def loads (s : String) : Option Json :=
  match parseVal (s.data.length + 1) (skipWs s.data) with
  | some (v, r) => if skipWs r = [] then some v else none
  | none => none


/-! ### Character-level facts -/

/-- A valid code point below the surrogate range survives `Char.ofNat`. -/
theorem toNat_ofNat_valid (n : Nat) (h : Nat.isValidChar n) : (Char.ofNat n).toNat = n := by
  rw [Char.ofNat, dif_pos h]
  simp [Char.ofNatAux, Char.toNat, UInt32.toNat, BitVec.toNat_ofNatLt]

/-- Characters with equal code points are equal. -/
theorem char_eq_of_toNat {a b : Char} (h : a.toNat = b.toNat) : a = b := by
  have hab := congrArg Char.ofNat h
  rwa [Char.ofNat_toNat, Char.ofNat_toNat] at hab

/-- Characters with distinct code points are distinct. -/
theorem char_ne_of_toNat {a b : Char} (h : a.toNat ≠ b.toNat) : a ≠ b :=
  fun he => h (congrArg Char.toNat he)

/-- Every Lean character is a valid scalar value: below the surrogates or
between them and the top code point. -/
theorem char_valid_cases (c : Char) : c.toNat < 55296 ∨ (57343 < c.toNat ∧ c.toNat < 1114112) :=
  c.valid

/-- Code point of a decimal digit character. -/
theorem digitCh_toNat (d : Nat) (h : d < 10) : (digitCh d).toNat = 48 + d :=
  toNat_ofNat_valid _ (Or.inl (by omega))

/-- Decimal digit characters pass the digit test. -/
theorem isDig_digitCh (d : Nat) (h : d < 10) : isDig (digitCh d) = true := by
  simp [isDig, digitCh_toNat d h]
  omega

/-! ### Decimal printing of naturals and ints -/

/-- The fueled digit printer is fuel-invariant above its input. -/
theorem natCharsAux_stable (f1 : Nat) : ∀ f2 n, n < f1 → n < f2 →
    natCharsAux f1 n = natCharsAux f2 n := by
  induction f1 with
  | zero => intro f2 n h1 _; omega
  | succ g ih =>
    intro f2 n h1 h2
    match f2, h2 with
    | g2+1, _ =>
      show natCharsAux (g+1) n = natCharsAux (g2+1) n
      by_cases hn : n < 10
      · simp [natCharsAux, hn]
      · simp only [natCharsAux, if_neg hn]
        rw [ih g2 (n / 10) (by omega) (by omega)]

/-- All printed digits pass the digit test. -/
theorem natCharsAux_digits (f : Nat) : ∀ n, n < f → ∀ c ∈ natCharsAux f n, isDig c = true := by
  induction f with
  | zero => intro n h; omega
  | succ g ih =>
    intro n h c hc
    by_cases hn : n < 10
    · simp [natCharsAux, hn] at hc
      subst hc
      exact isDig_digitCh n hn
    · simp only [natCharsAux, if_neg hn, List.mem_append, List.mem_singleton] at hc
      rcases hc with hc | hc
      · exact ih (n / 10) (by omega) c hc
      · subst hc
        exact isDig_digitCh (n % 10) (by omega)

/-- Folding the printed digits back recovers the number. -/
theorem digitsVal_natCharsAux (f : Nat) : ∀ n, n < f → digitsVal (natCharsAux f n) = n := by
  induction f with
  | zero => intro n h; omega
  | succ g ih =>
    intro n h
    by_cases hn : n < 10
    · simp [natCharsAux, hn, digitsVal, digitCh_toNat n hn]
    · simp only [natCharsAux, if_neg hn, digitsVal, List.foldl_append]
      have hv := ih (n / 10) (by omega)
      simp only [digitsVal] at hv
      rw [hv, List.foldl_cons, List.foldl_nil, digitCh_toNat (n % 10) (by omega)]
      omega

/-- The printed form of a positive number starts with a nonzero digit. -/
theorem natCharsAux_head_pos (f : Nat) : ∀ n, n < f → 1 ≤ n →
    ∃ c t, natCharsAux f n = c :: t ∧ 49 ≤ c.toNat ∧ c.toNat ≤ 57 := by
  induction f with
  | zero => intro n h; omega
  | succ g ih =>
    intro n h h1
    by_cases hn : n < 10
    · refine ⟨digitCh n, [], by simp [natCharsAux, hn], ?_, ?_⟩ <;> rw [digitCh_toNat n hn] <;> omega
    · obtain ⟨c, t, hct, hlo, hhi⟩ := ih (n / 10) (by omega) (by omega)
      exact ⟨c, t ++ [digitCh (n % 10)], by simp [natCharsAux, hn, hct], hlo, hhi⟩

/-- The printed form of any natural starts with a digit. -/
theorem natChars_head (n : Nat) :
    ∃ c t, natChars n = c :: t ∧ 48 ≤ c.toNat ∧ c.toNat ≤ 57 := by
  rcases Nat.eq_zero_or_pos n with rfl | hpos
  · exact ⟨digitCh 0, [], rfl, by decide, by decide⟩
  · obtain ⟨c, t, hct, hlo, hhi⟩ := natCharsAux_head_pos (n + 1) n (by omega) hpos
    exact ⟨c, t, hct, by omega, hhi⟩

/-- The printed form of any natural ends with a digit. -/
theorem natCharsAux_last (f n : Nat) (h : n < f) :
    ∃ c, (natCharsAux f n).getLast? = some c ∧ isDig c = true := by
  match f, h with
  | g+1, _ =>
    by_cases hn : n < 10
    · exact ⟨digitCh n, by simp [natCharsAux, hn], isDig_digitCh n hn⟩
    · refine ⟨digitCh (n % 10), ?_, isDig_digitCh (n % 10) (by omega)⟩
      simp [natCharsAux, hn, List.getLast?_concat]

/-- Digit lists are consumed exactly by the greedy digit scanner when the
remainder does not begin with a digit. -/
def noLeadDigit : List Char → Prop
  | [] => True
  | c :: _ => isDig c = false

theorem takeDigits_exact : ∀ ds rest, (∀ c ∈ ds, isDig c = true) → noLeadDigit rest →
    takeDigits (ds ++ rest) = (ds, rest) := by
  intro ds
  induction ds with
  | nil =>
    intro rest _ hr
    match rest with
    | [] => rfl
    | c :: t => simp [takeDigits, hr]; simp [noLeadDigit] at hr; simp [hr]
  | cons c t ih =>
    intro rest hd hr
    have hc : isDig c = true := hd c (by simp)
    have ht := ih rest (fun x hx => hd x (by simp [hx])) hr
    simp only [List.cons_append, takeDigits, hc, if_pos, List.append_eq, ht]

/-- Round trip for the unsigned number token. -/
theorem parseNatTok_natChars (n : Nat) (rest : List Char) (hr : noLeadDigit rest) :
    parseNatTok (natChars n ++ rest) = some (n, rest) := by
  rcases Nat.eq_zero_or_pos n with rfl | hpos
  · have h0 : natChars 0 = ['0'] := rfl
    rw [h0]
    rfl
  · obtain ⟨c, t, hct, hlo, hhi⟩ := natCharsAux_head_pos (n + 1) n (by omega) hpos
    have hct' : natChars n = c :: t := hct
    rw [hct']
    have hcne : c ≠ '0' := char_ne_of_toNat (by simp; omega)
    have hcdig : isDig c = true := by simp [isDig]; omega
    simp only [List.cons_append, parseNatTok, if_neg hcne, hcdig, if_pos]
    have htd : ∀ x ∈ t, isDig x = true := by
      intro x hx
      exact natCharsAux_digits (n + 1) n (by omega) x (by rw [hct]; simp [hx])
    rw [takeDigits_exact t rest htd hr]
    have : digitsVal (c :: t) = n := by
      have := digitsVal_natCharsAux (n + 1) n (by omega)
      rwa [hct] at this
    simp [this]

/-- Round trip for optionally signed integers. -/
theorem parseNum_intChars (n : Int) (rest : List Char) (hr : noLeadDigit rest) :
    parseNum (intChars n ++ rest) = some (n, rest) := by
  match n with
  | .ofNat m =>
    obtain ⟨c, t, hct, hlo, hhi⟩ := natChars_head m
    have : intChars (Int.ofNat m) ++ rest = c :: (t ++ rest) := by
      simp [intChars, hct]
    rw [this]
    have hcne : c ≠ '-' := char_ne_of_toNat (by simp; omega)
    simp only [parseNum, if_neg hcne]
    have := parseNatTok_natChars m rest hr
    rw [hct] at this
    simp only [List.cons_append] at this
    rw [this]
    rfl
  | .negSucc m =>
    have : intChars (Int.negSucc m) ++ rest = '-' :: (natChars (m + 1) ++ rest) := by
      simp [intChars]
    rw [this]
    simp only [parseNum, if_pos rfl]
    rw [parseNatTok_natChars (m + 1) rest hr]
    rfl

/-! ### Hexadecimal escapes -/

/-- Hexadecimal digit characters decode to their value. -/
theorem hexVal_hexDig : ∀ d, d < 16 → hexVal (hexDig d) = some d := by decide

/-- Four printed hexadecimal digits decode to the encoded value. -/
theorem readHex4_digits (n : Nat) (h : n < 65536) (rest : List Char) :
    readHex4 (hexDig (n / 4096 % 16) :: hexDig (n / 256 % 16) :: hexDig (n / 16 % 16) ::
      hexDig (n % 16) :: rest) = some (n, rest) := by
  have h1 := hexVal_hexDig (n / 4096 % 16) (by omega)
  have h2 := hexVal_hexDig (n / 256 % 16) (by omega)
  have h3 := hexVal_hexDig (n / 16 % 16) (by omega)
  have h4 := hexVal_hexDig (n % 16) (by omega)
  simp only [readHex4, h1, h2, h3, h4, Option.some.injEq, Prod.mk.injEq]
  exact ⟨by omega, trivial⟩

/-- Spelled-out form of `uEsc` prepended to a remainder. -/
theorem uEsc_cons (n : Nat) (rest : List Char) :
    uEsc n ++ rest = '\\' :: 'u' :: hexDig (n / 4096 % 16) :: hexDig (n / 256 % 16) ::
      hexDig (n / 16 % 16) :: hexDig (n % 16) :: rest := rfl

/-- Unfolding step: a `\u` escape hands control to `parseUEsc`. -/
theorem parseStrAux_u (f : Nat) (acc tail : List Char) :
    parseStrAux (f + 1) acc ('\\' :: 'u' :: tail) =
      (parseUEsc tail).bind (fun p => parseStrAux f (p.1 :: acc) p.2) := rfl

/-- Decoding the printed escape of a non-surrogate BMP code point. -/
theorem parseUEsc_bmp (n : Nat) (hn : n < 65536) (hs : n < 55296 ∨ 57343 < n)
    (cs : List Char) :
    parseUEsc (hexDig (n / 4096 % 16) :: hexDig (n / 256 % 16) :: hexDig (n / 16 % 16) ::
      hexDig (n % 16) :: cs) = some (Char.ofNat n, cs) := by
  have h1 : ¬ ((55296 ≤ n && n ≤ 56319) = true) := by
    simp only [Bool.and_eq_true, decide_eq_true_eq]
    omega
  have h2 : ¬ ((56320 ≤ n && n ≤ 57343) = true) := by
    simp only [Bool.and_eq_true, decide_eq_true_eq]
    omega
  simp only [parseUEsc, readHex4_digits n hn cs, if_neg h1, if_neg h2]

/-- Decoding a printed surrogate pair recombines the two halves. -/
theorem parseUEsc_pair (h l : Nat) (hh1 : 55296 ≤ h) (hh2 : h ≤ 56319)
    (hl1 : 56320 ≤ l) (hl2 : l ≤ 57343) (cs : List Char) :
    parseUEsc (hexDig (h / 4096 % 16) :: hexDig (h / 256 % 16) :: hexDig (h / 16 % 16) ::
      hexDig (h % 16) :: '\\' :: 'u' :: hexDig (l / 4096 % 16) :: hexDig (l / 256 % 16) ::
      hexDig (l / 16 % 16) :: hexDig (l % 16) :: cs) =
      some (Char.ofNat (65536 + (h - 55296) * 1024 + (l - 56320)), cs) := by
  have hisHi : (55296 ≤ h && h ≤ 56319) = true := by
    simp only [Bool.and_eq_true, decide_eq_true_eq]
    omega
  have hisLo : (56320 ≤ l && l ≤ 57343) = true := by
    simp only [Bool.and_eq_true, decide_eq_true_eq]
    omega
  simp only [parseUEsc, readHex4_digits h (by omega), if_pos hisHi,
    readHex4_digits l (by omega), if_pos hisLo]

/-! ### String-literal round trip -/

/-- Decoding one encoded character costs one unit of fuel and recovers the
character. -/
theorem parseStrAux_escChar (c : Char) (f : Nat) (acc cs : List Char) :
    parseStrAux (f + 1) acc (escChar c ++ cs) = parseStrAux f (c :: acc) cs := by
  by_cases hq : c = '\"'
  · subst hq; rfl
  · by_cases hb : c = '\\'
    · subst hb; rfl
    · by_cases h8 : c.toNat = 8
      · have hc : Char.ofNat 8 = c :=
          char_eq_of_toNat (by rw [toNat_ofNat_valid 8 (Or.inl (by omega)), h8])
        simp only [escChar, if_neg hq, if_neg hb, if_pos h8]
        show parseStrAux f (Char.ofNat 8 :: acc) cs = parseStrAux f (c :: acc) cs
        rw [hc]
      · by_cases h9 : c.toNat = 9
        · have hc : Char.ofNat 9 = c :=
            char_eq_of_toNat (by rw [toNat_ofNat_valid 9 (Or.inl (by omega)), h9])
          simp only [escChar, if_neg hq, if_neg hb, if_neg h8, if_pos h9]
          show parseStrAux f (Char.ofNat 9 :: acc) cs = parseStrAux f (c :: acc) cs
          rw [hc]
        · by_cases h10 : c.toNat = 10
          · have hc : Char.ofNat 10 = c :=
              char_eq_of_toNat (by rw [toNat_ofNat_valid 10 (Or.inl (by omega)), h10])
            simp only [escChar, if_neg hq, if_neg hb, if_neg h8, if_neg h9, if_pos h10]
            show parseStrAux f (Char.ofNat 10 :: acc) cs = parseStrAux f (c :: acc) cs
            rw [hc]
          · by_cases h12 : c.toNat = 12
            · have hc : Char.ofNat 12 = c :=
                char_eq_of_toNat (by rw [toNat_ofNat_valid 12 (Or.inl (by omega)), h12])
              simp only [escChar, if_neg hq, if_neg hb, if_neg h8, if_neg h9, if_neg h10,
                if_pos h12]
              show parseStrAux f (Char.ofNat 12 :: acc) cs = parseStrAux f (c :: acc) cs
              rw [hc]
            · by_cases h13 : c.toNat = 13
              · have hc : Char.ofNat 13 = c :=
                  char_eq_of_toNat (by rw [toNat_ofNat_valid 13 (Or.inl (by omega)), h13])
                simp only [escChar, if_neg hq, if_neg hb, if_neg h8, if_neg h9, if_neg h10,
                  if_neg h12, if_pos h13]
                show parseStrAux f (Char.ofNat 13 :: acc) cs = parseStrAux f (c :: acc) cs
                rw [hc]
              · by_cases hpr : (32 ≤ c.toNat && c.toNat ≤ 126) = true
                · simp only [escChar, if_neg hq, if_neg hb, if_neg h8, if_neg h9, if_neg h10,
                    if_neg h12, if_neg h13, if_pos hpr, List.cons_append, List.nil_append]
                  have hge : ¬ (c.toNat < 32) := by
                    simp only [Bool.and_eq_true, decide_eq_true_eq] at hpr
                    omega
                  simp only [parseStrAux, if_neg hq, if_neg hb, if_neg hge]
                · by_cases hbmp : c.toNat < 65536
                  · have hval := char_valid_cases c
                    simp only [escChar, if_neg hq, if_neg hb, if_neg h8, if_neg h9, if_neg h10,
                      if_neg h12, if_neg h13, if_neg hpr, if_pos hbmp, uEsc_cons]
                    rw [parseStrAux_u, parseUEsc_bmp c.toNat hbmp (by omega) cs,
                      Char.ofNat_toNat]
                    rfl
                  · have hval := char_valid_cases c
                    simp only [escChar, if_neg hq, if_neg hb, if_neg h8, if_neg h9, if_neg h10,
                      if_neg h12, if_neg h13, if_neg hpr, if_neg hbmp, List.append_assoc]
                    rw [uEsc_cons, parseStrAux_u, uEsc_cons,
                      parseUEsc_pair (55296 + (c.toNat - 65536) / 1024)
                        (56320 + (c.toNat - 65536) % 1024)
                        (by omega) (by omega) (by omega) (by omega) cs]
                    have hcomb : 65536 + (55296 + (c.toNat - 65536) / 1024 - 55296) * 1024 +
                        (56320 + (c.toNat - 65536) % 1024 - 56320) = c.toNat := by omega
                    rw [hcomb, Char.ofNat_toNat]
                    rfl

/-- Each character encodes to at least one character. -/
theorem escChar_length_pos (c : Char) : 1 ≤ (escChar c).length := by
  unfold escChar
  split_ifs <;> simp [uEsc]

/-- Encoding a character list never shrinks it. -/
theorem escList_length (l : List Char) : l.length ≤ (escList l).length := by
  induction l with
  | nil => simp [escList]
  | cons c t ih =>
    have := escChar_length_pos c
    simp only [escList, List.length_append, List.length_cons]
    omega

/-- Round trip for an encoded string body followed by the closing quote:
the parser recovers the accumulated prefix plus the encoded characters. -/
theorem parseStrAux_print (l : List Char) : ∀ fuel acc cs, l.length < fuel →
    parseStrAux fuel acc (escList l ++ '\"' :: cs) = some (String.mk (acc.reverse ++ l), cs) := by
  induction l with
  | nil =>
    intro fuel acc cs hf
    match fuel, hf with
    | f+1, _ =>
      show parseStrAux (f+1) acc ('\"' :: cs) = _
      simp [parseStrAux]
  | cons c t ih =>
    intro fuel acc cs hf
    match fuel, hf with
    | f+1, hf2 =>
      have hstep := parseStrAux_escChar c f acc (escList t ++ '\"' :: cs)
      rw [show escList (c :: t) ++ '\"' :: cs = escChar c ++ (escList t ++ '\"' :: cs) by
        simp [escList], hstep, ih f (c :: acc) cs (by
          simp only [List.length_cons] at hf2
          omega)]
      simp

/-- Round trip for a full quoted string body as it appears in `printJ`
output, at the fuel used by `parseVal`. -/
theorem parseStrAux_strChars (s : String) (cs : List Char) :
    parseStrAux ((escList s.data ++ '\"' :: cs).length + 1) [] (escList s.data ++ '\"' :: cs) =
      some (s, cs) := by
  have hlen : s.data.length < (escList s.data ++ '\"' :: cs).length + 1 := by
    have := escList_length s.data
    simp only [List.length_append, List.length_cons]
    omega
  rw [parseStrAux_print s.data _ [] cs hlen]
  simp

/-! ### Head shapes of printed values -/

/-- Reductions for `Option.bind` on a present value. -/
theorem optBind_some {α β : Type} (a : α) (g : α → Option β) : (Option.some a).bind g = g a := rfl

/-- Reduction for `headTail` on a non-empty list. -/
theorem headTail_cons (c : Char) (r : List Char) : headTail (c :: r) = some (c, r) := rfl

/-- `skipWs` fixes a list whose head is not JSON whitespace. -/
theorem skipWs_not (c : Char) (t : List Char) (h : isJsonWs c = false) :
    skipWs (c :: t) = c :: t := by
  simp [skipWs, h]

/-- `skipWs` absorbs one leading space. -/
theorem skipWs_sp (t : List Char) : skipWs (' ' :: t) = skipWs t := rfl

/-- First character of a printed int: a minus sign or a digit. -/
theorem intChars_shape (n : Int) : ∃ c t, intChars n = c :: t ∧ 45 ≤ c.toNat ∧
    c.toNat ≤ 57 ∧ c.toNat ≠ 46 ∧ c.toNat ≠ 47 := by
  match n with
  | .ofNat m =>
    obtain ⟨c, t, hct, h1, h2⟩ := natChars_head m
    exact ⟨c, t, by simp [intChars, hct], by omega, h2, by omega, by omega⟩
  | .negSucc m =>
    exact ⟨'-', natChars (m + 1), by simp [intChars], by decide, by decide, by decide, by decide⟩

/-- First character of a printed value: never whitespace, a closing
delimiter, or a separator. -/
theorem printJ_shape (v : Json) : ∃ c t, printJ v = c :: t ∧ isJsonWs c = false ∧
    c ≠ ']' ∧ c ≠ rbrace ∧ c ≠ ',' := by
  cases v with
  | null =>
    exact ⟨'n', ['u', 'l', 'l'], by simp only [printJ], by decide, by decide, by decide,
      by decide⟩
  | bool b =>
    cases b with
    | true =>
      exact ⟨'t', ['r', 'u', 'e'], by simp only [printJ], by decide, by decide, by decide,
        by decide⟩
    | false =>
      exact ⟨'f', ['a', 'l', 's', 'e'], by simp only [printJ], by decide, by decide,
        by decide, by decide⟩
  | num n =>
    obtain ⟨c, t, hct, hlo, hhi, h46, h47⟩ := intChars_shape n
    refine ⟨c, t, by simp [printJ, hct], ?_, ?_, ?_, ?_⟩
    · simp only [isJsonWs]
      simp only [Bool.or_eq_false_iff, decide_eq_false_iff_not]
      omega
    · exact char_ne_of_toNat (by rw [show (']').toNat = 93 from rfl]; omega)
    · exact char_ne_of_toNat (by rw [show rbrace.toNat = 125 from rfl]; omega)
    · exact char_ne_of_toNat (by rw [show (',').toNat = 44 from rfl]; omega)
  | str s =>
    exact ⟨'\"', escList s.data ++ ['\"'], by simp [printJ, strChars], by decide, by decide,
      by decide, by decide⟩
  | arr xs =>
    cases xs with
    | nil => exact ⟨'[', [']'], by simp [printJ], by decide, by decide, by decide, by decide⟩
    | cons x xs =>
      exact ⟨'[', printElems x xs ++ [']'], by simp [printJ], by decide, by decide,
        by decide, by decide⟩
  | obj ms =>
    cases ms with
    | nil => exact ⟨lbrace, [rbrace], by simp [printJ], by decide, by decide, by decide, by decide⟩
    | cons m ms =>
      exact ⟨lbrace, printMems m ms ++ [rbrace], by simp [printJ], by decide, by decide,
        by decide, by decide⟩

/-- First character of a printed element list, with the same exclusions. -/
theorem printElems_shape (x : Json) (xs : List Json) : ∃ c t, printElems x xs = c :: t ∧
    isJsonWs c = false ∧ c ≠ ']' ∧ c ≠ rbrace ∧ c ≠ ',' := by
  obtain ⟨c, t, hct, h1, h2, h3, h4⟩ := printJ_shape x
  cases xs with
  | nil => exact ⟨c, t, by simp [printElems, hct], h1, h2, h3, h4⟩
  | cons y ys =>
    exact ⟨c, t ++ ',' :: ' ' :: printElems y ys, by simp [printElems, hct], h1, h2, h3, h4⟩

/-- A printed member list always starts with a double quote. -/
theorem printMems_shape (m : String × Json) (ms : List (String × Json)) :
    ∃ t, printMems m ms = '\"' :: t := by
  obtain ⟨k, v⟩ := m
  cases ms with
  | nil => exact ⟨escList k.data ++ '\"' :: (':' :: ' ' :: printJ v), by simp [printMems, strChars]⟩
  | cons mm mms =>
    exact ⟨escList k.data ++ '\"' :: (':' :: ' ' :: (printJ v ++ ',' :: ' ' :: printMems mm mms)),
      by simp [printMems, strChars]⟩

/-! ### Fuel accounting for the parser -/

mutual

/-- Nesting fuel sufficient for `parseVal` on the printed form. -/
def fuelJ : Json → Nat
  | .arr (x :: xs) => 1 + fuelE x xs
  | .obj (m :: ms) => 1 + fuelM m ms
  | _ => 1
termination_by v => sizeOf v
decreasing_by all_goals (simp_wf; try omega)

/-- Nesting fuel sufficient for `parseElems` on the printed form. -/
def fuelE : Json → List Json → Nat
  | x, [] => 1 + fuelJ x
  | x, y :: ys => 1 + fuelJ x + fuelE y ys
termination_by x xs => 1 + sizeOf x + sizeOf xs
decreasing_by all_goals (simp_wf; try omega)

/-- Nesting fuel sufficient for `parseMems` on the printed form. -/
def fuelM : String × Json → List (String × Json) → Nat
  | (_, v), [] => 1 + fuelJ v
  | (_, v), m :: ms => 1 + fuelJ v + fuelM m ms
termination_by m ms => 1 + sizeOf m + sizeOf ms
decreasing_by all_goals (simp_wf; try omega)

end

theorem fuelJ_pos (v : Json) : 1 ≤ fuelJ v := by
  cases v with
  | arr xs => cases xs <;> simp [fuelJ]
  | obj ms => cases ms <;> simp [fuelJ]
  | _ => simp [fuelJ]

theorem fuelE_pos (x : Json) (xs : List Json) : 1 ≤ fuelE x xs := by
  cases xs <;> simp only [fuelE] <;> omega

theorem fuelM_pos (m : String × Json) (ms : List (String × Json)) : 1 ≤ fuelM m ms := by
  obtain ⟨k, v⟩ := m
  cases ms <;> simp only [fuelM] <;> omega

mutual

/-- The fuel bound is below the printed length. -/
theorem fuelJ_le (v : Json) : fuelJ v ≤ (printJ v).length := by
  cases v with
  | num n =>
    obtain ⟨c, t, hct, _, _, _, _⟩ := intChars_shape n
    simp [fuelJ, printJ, hct]
  | arr xs =>
    cases xs with
    | nil => simp [fuelJ, printJ]
    | cons x xs =>
      have := fuelE_le x xs
      simp only [fuelJ, printJ, List.length_cons, List.length_append, List.length_singleton]
      omega
  | obj ms =>
    cases ms with
    | nil => simp [fuelJ, printJ]
    | cons m ms =>
      have := fuelM_le m ms
      simp only [fuelJ, printJ, List.length_cons, List.length_append, List.length_singleton]
      omega
  | bool b => cases b <;> (simp only [fuelJ, printJ]; decide)
  | null =>
    simp only [fuelJ, printJ]
    decide
  | str s => simp [fuelJ, printJ, strChars]
termination_by sizeOf v
decreasing_by all_goals (simp_wf; try omega)

/-- The element fuel bound is below the printed length plus one. -/
theorem fuelE_le (x : Json) (xs : List Json) : fuelE x xs ≤ (printElems x xs).length + 1 := by
  cases xs with
  | nil =>
    have := fuelJ_le x
    simp only [fuelE, printElems]
    omega
  | cons y ys =>
    have h1 := fuelJ_le x
    have h2 := fuelE_le y ys
    simp only [fuelE, printElems, List.length_append, List.length_cons]
    omega
termination_by 1 + sizeOf x + sizeOf xs
decreasing_by all_goals (simp_wf; try omega)

/-- The member fuel bound is below the printed length plus one. -/
theorem fuelM_le (m : String × Json) (ms : List (String × Json)) :
    fuelM m ms ≤ (printMems m ms).length + 1 := by
  obtain ⟨k, v⟩ := m
  cases ms with
  | nil =>
    have := fuelJ_le v
    simp only [fuelM, printMems, strChars, List.length_append, List.length_cons]
    omega
  | cons mm mms =>
    have h1 := fuelJ_le v
    have h2 := fuelM_le mm mms
    simp only [fuelM, printMems, strChars, List.length_append, List.length_cons]
    omega
termination_by 1 + sizeOf m + sizeOf ms
decreasing_by all_goals (simp_wf; try omega)

end

/-! ### Guard against digit absorption after a printed number -/

/-- Guard needed after a printed value: only numbers can absorb a
following digit, so the remainder must not begin with one. -/
def numOk : Json → List Char → Prop
  | .num _, rest => noLeadDigit rest
  | _, _ => True

theorem numOk_head (v : Json) (c : Char) (rest : List Char) (h : isDig c = false) :
    numOk v (c :: rest) := by
  cases v <;> simp [numOk, noLeadDigit, h]

theorem numOk_nil (v : Json) : numOk v [] := by
  cases v <;> simp [numOk, noLeadDigit]

/-! ### Unfolding steps for the value parser -/

/-- Step: a quote starts a string literal. -/
theorem parseVal_quote (f : Nat) (tail : List Char) :
    parseVal (f + 1) ('\"' :: tail) =
      (parseStrAux (tail.length + 1) [] tail).map (fun p => (Json.str p.1, p.2)) := rfl

/-- Step: a bracket starts an array. -/
theorem parseVal_lbracket (f : Nat) (tail : List Char) :
    parseVal (f + 1) ('[' :: tail) =
      (headTail (skipWs tail)).bind (fun q =>
        if q.1 = ']' then some (.arr [], q.2)
        else (parseElems f (q.1 :: q.2)).map (fun p => (Json.arr p.1, p.2))) := rfl

/-- Step: a brace starts an object. -/
theorem parseVal_lbrace (f : Nat) (tail : List Char) :
    parseVal (f + 1) (lbrace :: tail) =
      (headTail (skipWs tail)).bind (fun q =>
        if q.1 = rbrace then some (.obj [], q.2)
        else (parseMems f (q.1 :: q.2)).map (fun p => (Json.obj p.1, p.2))) := rfl

/-- Step: any other character is scanned as a number. -/
theorem parseVal_other (f : Nat) (c : Char) (tail : List Char)
    (h1 : c ≠ '\"') (h2 : c ≠ '[') (h3 : c ≠ lbrace) (h4 : c ≠ 'n') (h5 : c ≠ 't')
    (h6 : c ≠ 'f') :
    parseVal (f + 1) (c :: tail) = (parseNum (c :: tail)).map (fun p => (Json.num p.1, p.2)) := by
  simp only [parseVal, if_neg h1, if_neg h2, if_neg h3, if_neg h4, if_neg h5, if_neg h6]

/-- Step: unfolding of the element-list parser. -/
theorem parseElems_eq (f : Nat) (cs : List Char) :
    parseElems (f + 1) cs = (parseVal f cs).bind (fun p =>
      (headTail (skipWs p.2)).bind (fun q =>
        if q.1 = ']' then some ([p.1], q.2)
        else if q.1 = ',' then
          (parseElems f (skipWs q.2)).map (fun z => (p.1 :: z.1, z.2))
        else none)) := rfl

/-- Step: unfolding of the member-list parser on a quoted key. -/
theorem parseMems_quote (f : Nat) (cs1 : List Char) :
    parseMems (f + 1) ('\"' :: cs1) = (parseStrAux (cs1.length + 1) [] cs1).bind (fun pk =>
      (headTail (skipWs pk.2)).bind (fun q1 =>
        if q1.1 = ':' then
          (parseVal f (skipWs q1.2)).bind (fun pv =>
            (headTail (skipWs pv.2)).bind (fun q2 =>
              if q2.1 = ',' then
                (parseMems f (skipWs q2.2)).map (fun z => ((pk.1, pv.1) :: z.1, z.2))
              else if q2.1 = rbrace then some ([(pk.1, pv.1)], q2.2)
              else none))
        else none)) := rfl

/-! ### Round trip of the printer through the parser -/

mutual

/-- Parsing the printed form of a value recovers the value and leaves the
remainder intact, at any sufficient fuel, provided the remainder cannot
extend a printed number. -/
theorem parseVal_print (v : Json) : ∀ fuel rest, fuelJ v ≤ fuel → numOk v rest →
    parseVal fuel (printJ v ++ rest) = some (v, rest) := by
  intro fuel rest hf hok
  obtain ⟨f, rfl⟩ : ∃ f, fuel = f + 1 := ⟨fuel - 1, by have := fuelJ_pos v; omega⟩
  cases v with
  | null =>
    rw [show printJ .null ++ rest = 'n' :: 'u' :: 'l' :: 'l' :: rest by
      simp only [printJ]
      rfl]
    rfl
  | bool b =>
    cases b with
    | true =>
      rw [show printJ (.bool true) ++ rest = 't' :: 'r' :: 'u' :: 'e' :: rest by
        simp only [printJ]
        rfl]
      rfl
    | false =>
      rw [show printJ (.bool false) ++ rest = 'f' :: 'a' :: 'l' :: 's' :: 'e' :: rest by
        simp only [printJ]
        rfl]
      rfl
  | num n =>
    obtain ⟨c, t, hct, hlo, hhi, h46, h47⟩ := intChars_shape n
    rw [show printJ (.num n) ++ rest = c :: (t ++ rest) by simp [printJ, hct]]
    rw [parseVal_other f c (t ++ rest)
      (char_ne_of_toNat (by rw [show ('\"').toNat = 34 from rfl]; omega))
      (char_ne_of_toNat (by rw [show ('[').toNat = 91 from rfl]; omega))
      (char_ne_of_toNat (by rw [show lbrace.toNat = 123 from rfl]; omega))
      (char_ne_of_toNat (by rw [show ('n').toNat = 110 from rfl]; omega))
      (char_ne_of_toNat (by rw [show ('t').toNat = 116 from rfl]; omega))
      (char_ne_of_toNat (by rw [show ('f').toNat = 102 from rfl]; omega))]
    rw [show c :: (t ++ rest) = intChars n ++ rest from by rw [hct]; rfl]
    rw [parseNum_intChars n rest hok]
    rfl
  | str s =>
    rw [show printJ (.str s) ++ rest = '\"' :: (escList s.data ++ '\"' :: rest) by
      simp [printJ, strChars]]
    rw [parseVal_quote f (escList s.data ++ '\"' :: rest), parseStrAux_strChars s rest]
    rfl
  | arr xs =>
    cases xs with
    | nil =>
      rw [show printJ (.arr []) ++ rest = '[' :: ']' :: rest by simp [printJ]]
      rfl
    | cons x xs =>
      rw [show printJ (.arr (x :: xs)) ++ rest = '[' :: (printElems x xs ++ ']' :: rest) by
        simp [printJ]]
      obtain ⟨c, t, hct, hws, hbr, _, _⟩ := printElems_shape x xs
      have hsk : skipWs (printElems x xs ++ ']' :: rest) = printElems x xs ++ ']' :: rest := by
        rw [hct, List.cons_append]
        exact skipWs_not c _ hws
      rw [parseVal_lbracket f _, hsk, hct, List.cons_append]
      simp only [headTail_cons, optBind_some]
      rw [if_neg hbr]
      rw [show c :: (t ++ ']' :: rest) = printElems x xs ++ ']' :: rest from by rw [hct]; rfl]
      rw [parseElems_print x xs f rest (by
        have h1 : fuelJ (.arr (x :: xs)) = 1 + fuelE x xs := by simp [fuelJ]
        omega)]
      rfl
  | obj ms =>
    cases ms with
    | nil =>
      rw [show printJ (.obj []) ++ rest = lbrace :: rbrace :: rest by simp [printJ]]
      rfl
    | cons m ms =>
      rw [show printJ (.obj (m :: ms)) ++ rest = lbrace :: (printMems m ms ++ rbrace :: rest) by
        simp [printJ]]
      obtain ⟨t, hct⟩ := printMems_shape m ms
      have hsk : skipWs (printMems m ms ++ rbrace :: rest) = printMems m ms ++ rbrace :: rest := by
        rw [hct, List.cons_append]
        exact skipWs_not '\"' _ (by decide)
      rw [parseVal_lbrace f _, hsk, hct, List.cons_append]
      simp only [headTail_cons, optBind_some]
      rw [if_neg (by decide : ¬ ('\"' = rbrace))]
      rw [show '\"' :: (t ++ rbrace :: rest) = printMems m ms ++ rbrace :: rest from by
        rw [hct]; rfl]
      rw [parseMems_print m ms f rest (by
        have h1 : fuelJ (.obj (m :: ms)) = 1 + fuelM m ms := by simp [fuelJ]
        omega)]
      rfl
termination_by sizeOf v
decreasing_by all_goals (subst_vars; simp_wf; try omega)

/-- Parsing the printed form of array elements followed by the closing
bracket recovers the element list. -/
theorem parseElems_print (x : Json) (xs : List Json) : ∀ fuel rest, fuelE x xs ≤ fuel →
    parseElems fuel (printElems x xs ++ ']' :: rest) = some (x :: xs, rest) := by
  intro fuel rest hf
  obtain ⟨f, rfl⟩ : ∃ f, fuel = f + 1 := ⟨fuel - 1, by have := fuelE_pos x xs; omega⟩
  cases xs with
  | nil =>
    rw [show printElems x [] ++ ']' :: rest = printJ x ++ ']' :: rest by simp [printElems]]
    rw [parseElems_eq]
    rw [parseVal_print x f (']' :: rest) (by
        simp only [fuelE] at hf
        omega)
      (numOk_head x ']' rest (by decide))]
    simp only [optBind_some]
    rw [skipWs_not ']' rest (by decide), headTail_cons]
    simp only [optBind_some]
    rfl
  | cons y ys =>
    rw [show printElems x (y :: ys) ++ ']' :: rest =
        printJ x ++ (',' :: ' ' :: (printElems y ys ++ ']' :: rest)) by simp [printElems]]
    rw [parseElems_eq]
    rw [parseVal_print x f _ (by
        simp only [fuelE] at hf
        omega)
      (numOk_head x ',' _ (by decide))]
    simp only [optBind_some]
    rw [skipWs_not ',' _ (by decide), headTail_cons]
    simp only [optBind_some]
    have hw : skipWs (' ' :: (printElems y ys ++ ']' :: rest)) =
        printElems y ys ++ ']' :: rest := by
      obtain ⟨c, t, hct, hws, _, _, _⟩ := printElems_shape y ys
      rw [skipWs_sp, hct, List.cons_append]
      exact skipWs_not c _ hws
    rw [hw]
    rw [parseElems_print y ys f rest (by
      simp only [fuelE] at hf
      omega)]
    rfl
termination_by 1 + sizeOf x + sizeOf xs
decreasing_by all_goals (subst_vars; simp_wf; try omega)

/-- Parsing the printed form of object members followed by the closing
brace recovers the member list. -/
theorem parseMems_print (m : String × Json) (ms : List (String × Json)) :
    ∀ fuel rest, fuelM m ms ≤ fuel →
    parseMems fuel (printMems m ms ++ rbrace :: rest) = some (m :: ms, rest) := by
  intro fuel rest
  rcases hm : m with ⟨k, v⟩
  intro hf
  obtain ⟨f, rfl⟩ : ∃ f, fuel = f + 1 := ⟨fuel - 1, by have := fuelM_pos (k, v) ms; omega⟩
  cases ms with
  | nil =>
    rw [show printMems (k, v) [] ++ rbrace :: rest =
        '\"' :: (escList k.data ++ '\"' :: (':' :: ' ' :: (printJ v ++ rbrace :: rest))) by
      simp [printMems, strChars]]
    rw [parseMems_quote, parseStrAux_strChars k _]
    simp only [optBind_some]
    rw [skipWs_not ':' _ (by decide), headTail_cons]
    simp only [optBind_some]
    have hw : skipWs (' ' :: (printJ v ++ rbrace :: rest)) = printJ v ++ rbrace :: rest := by
      obtain ⟨c, t, hct, hws, _, _, _⟩ := printJ_shape v
      rw [skipWs_sp, hct, List.cons_append]
      exact skipWs_not c _ hws
    rw [hw]
    rw [parseVal_print v f _ (by
        simp only [fuelM] at hf
        omega)
      (numOk_head v rbrace _ (by decide))]
    simp only [optBind_some]
    rw [skipWs_not rbrace _ (by decide), headTail_cons]
    simp only [optBind_some]
    rfl
  | cons mm mms =>
    rw [show printMems (k, v) (mm :: mms) ++ rbrace :: rest =
        '\"' :: (escList k.data ++ '\"' :: (':' :: ' ' ::
          (printJ v ++ (',' :: ' ' :: (printMems mm mms ++ rbrace :: rest))))) by
      simp [printMems, strChars]]
    rw [parseMems_quote, parseStrAux_strChars k _]
    simp only [optBind_some]
    rw [skipWs_not ':' _ (by decide), headTail_cons]
    simp only [optBind_some]
    have hw : skipWs (' ' :: (printJ v ++ (',' :: ' ' :: (printMems mm mms ++ rbrace :: rest)))) =
        printJ v ++ (',' :: ' ' :: (printMems mm mms ++ rbrace :: rest)) := by
      obtain ⟨c, t, hct, hws, _, _, _⟩ := printJ_shape v
      rw [skipWs_sp, hct, List.cons_append]
      exact skipWs_not c _ hws
    rw [hw]
    rw [parseVal_print v f _ (by
        simp only [fuelM] at hf
        omega)
      (numOk_head v ',' _ (by decide))]
    simp only [optBind_some]
    rw [skipWs_not ',' _ (by decide), headTail_cons]
    simp only [optBind_some]
    have hw2 : skipWs (' ' :: (printMems mm mms ++ rbrace :: rest)) =
        printMems mm mms ++ rbrace :: rest := by
      obtain ⟨t, hct⟩ := printMems_shape mm mms
      rw [skipWs_sp, hct, List.cons_append]
      exact skipWs_not '\"' _ (by decide)
    rw [hw2]
    rw [parseMems_print mm mms f rest (by
      simp only [fuelM] at hf
      omega)]
    rfl
termination_by 1 + sizeOf m + sizeOf ms
decreasing_by all_goals (subst_vars; simp_wf; try omega)

end

/-- Round trip of the codec: `json.loads` inverts `json.dumps`. -/
theorem loads_dumps (v : Json) : loads (dumps v) = some v := by
  obtain ⟨c, t, hct, hws, _, _, _⟩ := printJ_shape v
  have hdata : (dumps v).data = printJ v := rfl
  have hskip : skipWs (dumps v).data = printJ v := by
    rw [hdata, hct]
    exact skipWs_not c t hws
  have hrt : parseVal ((dumps v).data.length + 1) (printJ v) = some (v, []) := by
    have h := parseVal_print v ((dumps v).data.length + 1) [] (by
        have h1 := fuelJ_le v
        rw [hdata]
        omega)
      (numOk_nil v)
    rwa [List.append_nil] at h
  simp only [loads, hskip, hrt]
  rfl

/-! ### Python string trimming -/

/-- Python's `str.rstrip()` with no argument. -/
def pyRstrip (s : String) : String := String.mk ((s.data.reverse.dropWhile isPySpace).reverse)

/-- Python's `str.strip()` with no argument. -/
def pyStrip (s : String) : String :=
  String.mk (((s.data.dropWhile isPySpace).reverse.dropWhile isPySpace).reverse)

/-- Last character of a printed value: never Python whitespace. -/
theorem printJ_last (v : Json) : ∃ c, (printJ v).getLast? = some c ∧ isPySpace c = false := by
  cases v with
  | null =>
    rw [show printJ Json.null = ['n', 'u', 'l', 'l'] from by simp only [printJ]]
    exact ⟨'l', rfl, by decide⟩
  | bool b =>
    cases b with
    | true =>
      rw [show printJ (Json.bool true) = ['t', 'r', 'u', 'e'] from by simp only [printJ]]
      exact ⟨'e', rfl, by decide⟩
    | false =>
      rw [show printJ (Json.bool false) = ['f', 'a', 'l', 's', 'e'] from by
        simp only [printJ]]
      exact ⟨'e', rfl, by decide⟩
  | num n =>
    match n with
    | .ofNat m =>
      obtain ⟨c, hc, hd⟩ := natCharsAux_last (m + 1) m (by omega)
      refine ⟨c, ?_, ?_⟩
      · rw [show printJ (Json.num (Int.ofNat m)) = natCharsAux (m + 1) m from by
          simp [printJ, intChars, natChars]]
        exact hc
      · simp only [isDig, Bool.and_eq_true, decide_eq_true_eq] at hd
        simp only [isPySpace, Bool.or_eq_false_iff, decide_eq_false_iff_not]
        omega
    | .negSucc m =>
      obtain ⟨c, hc, hd⟩ := natCharsAux_last (m + 2) (m + 1) (by omega)
      obtain ⟨c0, t0, hct0, _, _⟩ := natChars_head (m + 1)
      have hct : natCharsAux (m + 2) (m + 1) = c0 :: t0 := hct0
      refine ⟨c, ?_, ?_⟩
      · rw [show printJ (Json.num (Int.negSucc m)) = '-' :: natCharsAux (m + 2) (m + 1) from by
          simp [printJ, intChars, natChars]]
        rw [hct, List.getLast?_cons_cons, ← hct]
        exact hc
      · simp only [isDig, Bool.and_eq_true, decide_eq_true_eq] at hd
        simp only [isPySpace, Bool.or_eq_false_iff, decide_eq_false_iff_not]
        omega
  | str s =>
    rw [show printJ (Json.str s) = ('\"' :: escList s.data) ++ ['\"'] from by simp [printJ, strChars]]
    exact ⟨'\"', List.getLast?_concat _, by decide⟩
  | arr xs =>
    cases xs with
    | nil =>
      rw [show printJ (Json.arr []) = ['[', ']'] from by simp [printJ]]
      exact ⟨']', rfl, by decide⟩
    | cons x xs =>
      rw [show printJ (Json.arr (x :: xs)) = ('[' :: printElems x xs) ++ [']'] from by
        simp [printJ]]
      exact ⟨']', List.getLast?_concat _, by decide⟩
  | obj ms =>
    cases ms with
    | nil =>
      rw [show printJ (Json.obj []) = [lbrace, rbrace] from by simp [printJ]]
      exact ⟨rbrace, rfl, by decide⟩
    | cons m ms =>
      rw [show printJ (Json.obj (m :: ms)) = (lbrace :: printMems m ms) ++ [rbrace] from by
        simp [printJ]]
      exact ⟨rbrace, List.getLast?_concat _, by decide⟩

/-- `rstrip` removes exactly the trailing newline from a dumped line. -/
theorem pyRstrip_line (v : Json) : pyRstrip (dumps v ++ "\n") = dumps v := by
  obtain ⟨c, hlast, hsp⟩ := printJ_last v
  have hdata : (dumps v ++ "\n").data = printJ v ++ ['\n'] := by
    rw [String.data_append]
    rfl
  have hrev : (printJ v).reverse.head? = some c := by
    rw [List.head?_reverse]
    exact hlast
  obtain ⟨t, ht⟩ : ∃ t, (printJ v).reverse = c :: t := by
    match h : (printJ v).reverse with
    | [] => rw [h] at hrev; simp at hrev
    | x :: xs =>
      rw [h] at hrev
      simp only [List.head?_cons, Option.some.injEq] at hrev
      exact ⟨xs, by rw [hrev]⟩
  unfold pyRstrip
  rw [hdata, List.reverse_append]
  rw [show (['\n'] : List Char).reverse ++ (printJ v).reverse = '\n' :: (printJ v).reverse from by
    simp]
  rw [ht]
  rw [show List.dropWhile isPySpace ('\n' :: c :: t) = List.dropWhile isPySpace (c :: t) from
    rfl]
  rw [show List.dropWhile isPySpace (c :: t) = c :: t from by simp [List.dropWhile, hsp]]
  rw [← ht, List.reverse_reverse]
  rfl

/-! ### The IPC module -/

/-- Python exceptions raised by the module, one constructor per raise
site. The two `assert` failures in `_receive_ipc_message` and the one in
`receive_message` are all `AssertionError` in Python; they are kept as
distinct constructors to name the site (the spec calls the first two
*MalformedMessage* and the last *UnexpectedPayloadShape*). -/
inductive PyErr where
  | valueError
  | emptyEnvelope
  | blankKeyword
  | lenTypeError
  | keyError
  | attributeError
  | unexpectedPayloadShape
  | decoderTypeError
  | unknownDecoder (name : String)
  | unknownEncoder (name : String)
deriving DecidableEq

/-- Envelope extraction of `_receive_ipc_message` after `json.loads`:
`keyword = msg_obj[0]`, `payload = msg_obj[1:]`, with the two `assert`s
(`len(msg_obj) >= 1` and `keyword.strip() != ''`) and Python's duck
typing. Arrays yield their head and a list payload; a non-empty string is
also indexable and sliceable, yielding its first character as keyword and
the remaining characters as a string payload; numbers, booleans and
`null` fail in `len()`; dicts pass `len()` when non-empty but fail at
`msg_obj[0]`; a non-string keyword fails at `.strip()`. -/
def splitEnvelope : Json → Except PyErr (String × Json)
  | .arr [] => .error .emptyEnvelope
  | .arr (k :: rest) =>
    match k with
    | .str ks => if pyStrip ks = "" then .error .blankKeyword else .ok (ks, .arr rest)
    | _ => .error .attributeError
  | .str s =>
    match s.data with
    | [] => .error .emptyEnvelope
    | c :: cs =>
      if pyStrip (String.mk [c]) = "" then .error .blankKeyword
      else .ok (String.mk [c], .str (String.mk cs))
  | .obj [] => .error .emptyEnvelope
  | .obj (_ :: _) => .error .keyError
  | _ => .error .lenTypeError

/-- Decode stage of `_receive_ipc_message` on one raw line:
`json.loads(msg.rstrip())` then the envelope split. -/
def decodeLine (line : String) : Except PyErr (String × Json) :=
  match loads (pyRstrip line) with
  | none => .error .valueError
  | some j => splitEnvelope j

/-- `_receive_ipc_message`: read one line under the inbound lock (at end
of stream `readline` returns the empty string, which fails JSON parsing)
and decode it. Returns the result together with the lines still pending
on the inbound stream. -/
def _receive_ipc_message (stream : List String) : Except PyErr (String × Json) × List String :=
  match stream with
  | [] => (decodeLine "", [])
  | line :: rest => (decodeLine line, rest)

/-- The `assert len(data) == 1` and `data[0]` steps of `receive_message`
once a `"message"` envelope arrives, with duck typing on the payload
value (a one-character string payload indexes to itself; a singleton dict
fails at `data[0]`). -/
def payloadExtract : Json → Except PyErr Json
  | .arr [x] => .ok x
  | .arr _ => .error .unexpectedPayloadShape
  | .str s => if s.data.length = 1 then .ok (.str s) else .error .unexpectedPayloadShape
  | .obj [_] => .error .keyError
  | .obj _ => .error .unexpectedPayloadShape
  | _ => .error .lenTypeError

/-- Dispatch loop of `receive_message`: consume envelopes until one with
keyword `"message"` arrives, then extract its single payload element;
envelopes with any other keyword are consumed and dropped. An exhausted
stream behaves like Python reading an empty line. -/
def recvLoop : List String → Except PyErr Json × List String
  | [] => (.error .valueError, [])
  | line :: rest =>
    match decodeLine line with
    | .error e => (.error e, rest)
    | .ok (keyword, data) =>
      if keyword = "message" then (payloadExtract data, rest)
      else recvLoop rest

/-- `receive_message`: validate the decode selector before any blocking
read, loop for a `"message"` envelope, then optionally decode the content
with `json.loads`. Returns the result and the lines still pending on the
inbound stream. -/
def receive_message (decode : Option String) (stream : List String) :
    Except PyErr Json × List String :=
  match decode with
  | some d =>
    if d = "json" then
      match recvLoop stream with
      | (.ok content, rest) =>
        (match content with
         | .str s =>
           (match loads s with
            | some j => (.ok j, rest)
            | none => (.error .valueError, rest))
         | _ => (.error .decoderTypeError, rest))
      | (.error e, rest) => (.error e, rest)
    else (.error (.unknownDecoder d), stream)
  | none => recvLoop stream

/-- `_send_ipc_message`: `json.dumps` the object, then write it and a
newline as two chunks under the outbound lock, and flush. The outbound
stream is modelled as the list of chunks written so far. -/
def _send_ipc_message (msg_obj : Json) (out : List String) : List String :=
  out ++ [dumps msg_obj, "\n"]

/-- `send_result`: with `encode='json'` serialize the result first; with
an unknown selector fail before writing anything; then send the
`["result", result]` envelope. -/
def send_result (result : Json) (encode : Option String) (out : List String) :
    Except PyErr Unit × List String :=
  match encode with
  | some e =>
    if e = "json" then
      (.ok (), _send_ipc_message (.arr [.str "result", .str (dumps result)]) out)
    else (.error (.unknownEncoder e), out)
  | none => (.ok (), _send_ipc_message (.arr [.str "result", result]) out)

/-- `send_heartbeat`: send the bare `["heartbeat"]` envelope. -/
def send_heartbeat (out : List String) : List String :=
  _send_ipc_message (.arr [.str "heartbeat"]) out

/-- Decoding a freshly dumped line is exactly the envelope split of the
dumped value: `rstrip` removes the newline and `loads` inverts `dumps`. -/
theorem decodeLine_dumps (v : Json) : decodeLine (dumps v ++ "\n") = splitEnvelope v := by
  unfold decodeLine
  rw [pyRstrip_line, loads_dumps]

/-! ### Outbound concurrency model -/

/-- Progress of one sender thread through `_send_ipc_message`: serialize
(outside the lock), acquire the outbound lock, write the serialized
envelope chunk, write the newline chunk, release. The `flush` between the
newline write and the release does not change the written chunks, so it
is folded into the release step. -/
inductive SPhase where
  | idle
  | locked
  | wroteMsg
  | wroteNl
  | done
deriving DecidableEq

/-- Global state of `n` sender threads racing on the outbound channel:
the holder of the outbound lock `to_lock`, each thread's phase, and the
chunks written to the outbound stream so far. -/
structure SendSt (n : Nat) where
  lock : Option (Fin n)
  phase : Fin n → SPhase
  out : List String

/-- Initial state: lock free, no thread started, nothing written. -/
def initSendSt (n : Nat) : SendSt n := ⟨none, fun _ => .idle, []⟩

/-- Interleaving semantics of `n` concurrent `_send_ipc_message` calls,
thread `i` sending the serialized envelope `lines i`: `acquire` models
`to_lock.acquire(True)` succeeding only when the lock is free; the two
write steps append their chunk and are available only to the lock
holder; `release` models `to_lock.release()`. -/
inductive SendStep (n : Nat) (lines : Fin n → String) : SendSt n → SendSt n → Prop where
  | acquire (s : SendSt n) (i : Fin n) (hl : s.lock = none) (hp : s.phase i = .idle) :
      SendStep n lines s ⟨some i, Function.update s.phase i .locked, s.out⟩
  | writeMsg (s : SendSt n) (i : Fin n) (hl : s.lock = some i) (hp : s.phase i = .locked) :
      SendStep n lines s ⟨some i, Function.update s.phase i .wroteMsg, s.out ++ [lines i]⟩
  | writeNl (s : SendSt n) (i : Fin n) (hl : s.lock = some i) (hp : s.phase i = .wroteMsg) :
      SendStep n lines s ⟨some i, Function.update s.phase i .wroteNl, s.out ++ ["\n"]⟩
  | release (s : SendSt n) (i : Fin n) (hl : s.lock = some i) (hp : s.phase i = .wroteNl) :
      SendStep n lines s ⟨none, Function.update s.phase i .done, s.out⟩

/-- Chunks the current lock holder has written of its own line so far. -/
def partialChunks (n : Nat) (lines : Fin n → String) (s : SendSt n) : List String :=
  match s.lock with
  | none => []
  | some i =>
    match s.phase i with
    | .wroteMsg => [lines i]
    | .wroteNl => [lines i, "\n"]
    | _ => []

/-- Invariant: the stream is the concatenation of the complete
newline-terminated lines of the threads already done, in lock-acquisition
order, followed by the partial chunks of the current holder; a holder is
always mid-send. -/
def SendInv (n : Nat) (lines : Fin n → String) (s : SendSt n) : Prop :=
  ∃ ord : List (Fin n), ord.Nodup ∧ (∀ i, i ∈ ord ↔ s.phase i = .done) ∧
    (∀ i, s.lock = some i →
      (s.phase i = .locked ∨ s.phase i = .wroteMsg ∨ s.phase i = .wroteNl)) ∧
    s.out = (ord.map (fun i => [lines i, "\n"])).flatten ++ partialChunks n lines s

theorem sendInv_init (n : Nat) (lines : Fin n → String) : SendInv n lines (initSendSt n) := by
  refine ⟨[], by simp, ?_, ?_, ?_⟩
  · intro i
    simp [initSendSt]
  · intro i h
    simp [initSendSt] at h
  · simp [initSendSt, partialChunks]

theorem sendInv_step (n : Nat) (lines : Fin n → String) (s s2 : SendSt n)
    (hstep : SendStep n lines s s2) (hinv : SendInv n lines s) : SendInv n lines s2 := by
  obtain ⟨ord, hnd, hdone, hlock, hout⟩ := hinv
  cases hstep with
  | acquire i hl hp =>
    refine ⟨ord, hnd, ?_, ?_, ?_⟩
    · intro j
      by_cases hji : j = i
      · subst hji
        show j ∈ ord ↔ Function.update s.phase j SPhase.locked j = SPhase.done
        rw [Function.update_same]
        constructor
        · intro hmem
          have hd := (hdone j).mp hmem
          rw [hp] at hd
          exact absurd hd (by decide)
        · intro hld
          exact absurd hld (by decide)
      · show j ∈ ord ↔ Function.update s.phase i SPhase.locked j = SPhase.done
        rw [Function.update_noteq hji]
        exact hdone j
    · intro j hj
      have hij : i = j := by
        simpa using hj
      subst hij
      left
      show Function.update s.phase i SPhase.locked i = SPhase.locked
      rw [Function.update_same]
    · show s.out = _ ++ partialChunks n lines ⟨some i, Function.update s.phase i .locked, s.out⟩
      rw [show partialChunks n lines ⟨some i, Function.update s.phase i .locked, s.out⟩ = []
        from by simp [partialChunks, Function.update_same]]
      rw [hout, show partialChunks n lines s = [] from by simp [partialChunks, hl]]
  | writeMsg i hl hp =>
    refine ⟨ord, hnd, ?_, ?_, ?_⟩
    · intro j
      by_cases hji : j = i
      · subst hji
        show j ∈ ord ↔ Function.update s.phase j SPhase.wroteMsg j = SPhase.done
        rw [Function.update_same]
        constructor
        · intro hmem
          have hd := (hdone j).mp hmem
          rw [hp] at hd
          exact absurd hd (by decide)
        · intro hld
          exact absurd hld (by decide)
      · show j ∈ ord ↔ Function.update s.phase i SPhase.wroteMsg j = SPhase.done
        rw [Function.update_noteq hji]
        exact hdone j
    · intro j hj
      have hij : i = j := by simpa using hj
      subst hij
      right
      left
      show Function.update s.phase i SPhase.wroteMsg i = SPhase.wroteMsg
      rw [Function.update_same]
    · show s.out ++ [lines i] =
        _ ++ partialChunks n lines ⟨some i, Function.update s.phase i .wroteMsg, s.out ++ [lines i]⟩
      rw [show partialChunks n lines
          ⟨some i, Function.update s.phase i .wroteMsg, s.out ++ [lines i]⟩ = [lines i]
        from by simp [partialChunks, Function.update_same]]
      rw [hout, show partialChunks n lines s = [] from by simp [partialChunks, hl, hp]]
      simp
  | writeNl i hl hp =>
    refine ⟨ord, hnd, ?_, ?_, ?_⟩
    · intro j
      by_cases hji : j = i
      · subst hji
        show j ∈ ord ↔ Function.update s.phase j SPhase.wroteNl j = SPhase.done
        rw [Function.update_same]
        constructor
        · intro hmem
          have hd := (hdone j).mp hmem
          rw [hp] at hd
          exact absurd hd (by decide)
        · intro hld
          exact absurd hld (by decide)
      · show j ∈ ord ↔ Function.update s.phase i SPhase.wroteNl j = SPhase.done
        rw [Function.update_noteq hji]
        exact hdone j
    · intro j hj
      have hij : i = j := by simpa using hj
      subst hij
      right
      right
      show Function.update s.phase i SPhase.wroteNl i = SPhase.wroteNl
      rw [Function.update_same]
    · show s.out ++ ["\n"] =
        _ ++ partialChunks n lines ⟨some i, Function.update s.phase i .wroteNl, s.out ++ ["\n"]⟩
      rw [show partialChunks n lines
          ⟨some i, Function.update s.phase i .wroteNl, s.out ++ ["\n"]⟩ = [lines i, "\n"]
        from by simp [partialChunks, Function.update_same]]
      rw [hout, show partialChunks n lines s = [lines i] from by simp [partialChunks, hl, hp]]
      simp
  | release i hl hp =>
    have hni : i ∉ ord := by
      intro hmem
      have hd := (hdone i).mp hmem
      rw [hp] at hd
      exact absurd hd (by decide)
    refine ⟨ord ++ [i], ?_, ?_, ?_, ?_⟩
    · rw [List.nodup_append]
      exact ⟨hnd, List.nodup_singleton i, by simpa using hni⟩
    · intro j
      by_cases hji : j = i
      · subst hji
        show j ∈ ord ++ [j] ↔ Function.update s.phase j SPhase.done j = SPhase.done
        rw [Function.update_same]
        simp
      · show j ∈ ord ++ [i] ↔ Function.update s.phase i SPhase.done j = SPhase.done
        rw [Function.update_noteq hji]
        rw [List.mem_append]
        simp only [List.mem_singleton]
        constructor
        · intro h
          rcases h with h | h
          · exact (hdone j).mp h
          · exact absurd h hji
        · intro h
          exact Or.inl ((hdone j).mpr h)
    · intro j hj
      exact absurd hj (by simp)
    · show s.out = _ ++ partialChunks n lines ⟨none, Function.update s.phase i .done, s.out⟩
      rw [show partialChunks n lines ⟨none, Function.update s.phase i .done, s.out⟩ = []
        from by simp [partialChunks]]
      rw [hout, show partialChunks n lines s = [lines i, "\n"] from by
        simp [partialChunks, hl, hp]]
      simp

theorem sendInv_reach (n : Nat) (lines : Fin n → String) (s : SendSt n)
    (h : Relation.ReflTransGen (SendStep n lines) (initSendSt n) s) : SendInv n lines s := by
  induction h with
  | refl => exact sendInv_init n lines
  | tail hab hbc ih => exact sendInv_step n lines _ _ hbc ih

/-! ### Claim-level definitions -/

/-- Boolean test for the error case of an `Except`. -/
def exceptIsErr {ε α : Type} : Except ε α → Bool
  | .error _ => true
  | .ok _ => false

/-- The inbound lines of the C2 scenario, as `readline` returns them. -/
def hbLine : String := "[\"heartbeat\"]\n"

/-- The `["message", "X"]` line of the C2 scenario. -/
def msgLine : String := "[\"message\", \"X\"]\n"

/-- The `["other", 1]` line of the C2 scenario. -/
def otherLine : String := "[\"other\", 1]\n"

/-- Failure condition of the inbound decode step as claim C3 states it:
not valid JSON, or not a non-empty JSON array, or the array's first
element is an empty or whitespace-only keyword. -/
def specC3Malformed (line : String) : Bool :=
  match loads (pyRstrip line) with
  | none => true
  | some j =>
    match j with
    | .arr [] => true
    | .arr (k :: _) =>
      match k with
      | .str ks => pyStrip ks = ""
      | _ => false
    | _ => true

/-- Failure condition of the inbound decode step as the code implements
it: not valid JSON; or a value rejected by the duck-typed validation —
`null`, a boolean, a number, any object, the empty array or empty
string, an array whose first element is not a string or is
empty/whitespace after trimming, or a non-empty string whose first
character is whitespace (a non-empty string is otherwise accepted as an
envelope). -/
def amendedC3Malformed (line : String) : Bool :=
  match loads (pyRstrip line) with
  | none => true
  | some j =>
    match j with
    | .arr [] => true
    | .arr (k :: _) =>
      (match k with
       | .str ks => pyStrip ks = ""
       | _ => true)
    | .str s =>
      (match s.data with
       | [] => true
       | c :: _ => pyStrip (String.mk [c]) = "")
    | _ => true

/-- Thread lines for the two-sender witness scenario: one heartbeat and
one result envelope. -/
def c8Lines : Fin 2 → String := fun i =>
  if i = 0 then dumps (.arr [.str "heartbeat"]) else dumps (.arr [.str "result", .str "ok"])

/-- States of the sequential two-sender execution used as a witness. -/
def c8S0 : SendSt 2 := initSendSt 2

/-- Thread 0 acquires the outbound lock. -/
def c8S1 : SendSt 2 := ⟨some 0, Function.update c8S0.phase 0 .locked, c8S0.out⟩

/-- Thread 0 writes its envelope chunk. -/
def c8S2 : SendSt 2 := ⟨some 0, Function.update c8S1.phase 0 .wroteMsg, c8S1.out ++ [c8Lines 0]⟩

/-- Thread 0 writes its newline chunk. -/
def c8S3 : SendSt 2 := ⟨some 0, Function.update c8S2.phase 0 .wroteNl, c8S2.out ++ ["\n"]⟩

/-- Thread 0 releases the lock. -/
def c8S4 : SendSt 2 := ⟨none, Function.update c8S3.phase 0 .done, c8S3.out⟩

/-- Thread 1 acquires the outbound lock. -/
def c8S5 : SendSt 2 := ⟨some 1, Function.update c8S4.phase 1 .locked, c8S4.out⟩

/-- Thread 1 writes its envelope chunk. -/
def c8S6 : SendSt 2 := ⟨some 1, Function.update c8S5.phase 1 .wroteMsg, c8S5.out ++ [c8Lines 1]⟩

/-- Thread 1 writes its newline chunk. -/
def c8S7 : SendSt 2 := ⟨some 1, Function.update c8S6.phase 1 .wroteNl, c8S6.out ++ ["\n"]⟩

/-- Thread 1 releases the lock: both sends complete. -/
def c8S8 : SendSt 2 := ⟨none, Function.update c8S7.phase 1 .done, c8S7.out⟩

/-! ### Claims -/

/-- C1: for every JSON-representable payload `v`, serializing the
envelope `["result", v]` with the outbound codec (`json.dumps` plus a
trailing newline, as written by `_send_ipc_message`) and parsing the
produced line with the inbound codec (strip the trailing newline,
`json.loads`, split into keyword and payload) yields the keyword
`"result"` and the single payload element `v` unchanged. -/
theorem c1_result_roundtrip (v : Json) :
    decodeLine (String.join (_send_ipc_message (Json.arr [Json.str "result", v]) [])) =
      Except.ok ("result", Json.arr [v]) := by
  have hjoin : String.join (_send_ipc_message (Json.arr [Json.str "result", v]) []) =
      dumps (Json.arr [Json.str "result", v]) ++ "\n" := rfl
  rw [hjoin, decodeLine_dumps]
  rfl

/-- C2 counterexample: with the inbound stream delivering
`["heartbeat"]`, `["message", "X"]`, `["other", 1]`, the call
`receive_message()` returns `"X"` but leaves `["other", 1]` unread on
the stream: the dispatch loop breaks at the `"message"` envelope, so the
claim that the non-`"message"` envelopes of the sequence are consumed is
false — the stream is not empty afterwards. -/
theorem c2_counterexample :
    receive_message none [hbLine, msgLine, otherLine] =
      (Except.ok (Json.str "X"), [otherLine]) ∧ [otherLine] ≠ ([] : List String) :=
  ⟨rfl, by simp⟩

/-- C2 (amended): with the inbound stream delivering `["heartbeat"]`,
`["message", "X"]`, `["other", 1]` in sequence, `receive_message()`
(decode=None) returns `"X"`; the non-`"message"` envelopes delivered
before the matching one (here `["heartbeat"]`) are consumed without
being surfaced, while envelopes after it (here `["other", 1]`) remain
unread on the stream. -/
theorem c2_filtering_amended (rest : List String) :
    receive_message none (hbLine :: msgLine :: otherLine :: rest) =
      (Except.ok (Json.str "X"), otherLine :: rest) := rfl

/-- C3 counterexample: the line `"abc"` is valid JSON but not an array,
so the claim requires a MalformedMessage failure; the code's duck-typed
validation nevertheless accepts it, indexing the string to keyword `"a"`
with string payload `"bc"`. -/
theorem c3_counterexample :
    specC3Malformed "\"abc\"" = true ∧
      decodeLine "\"abc\"" = Except.ok ("a", Json.str "bc") :=
  ⟨rfl, rfl⟩

/-- C3 (amended): the inbound decode step fails exactly when the line is
not valid JSON, or decodes to `null`, a boolean, a number, an object,
the empty array or the empty string, or to an array whose first element
is not a string or is empty/whitespace-only, or to a non-empty string
whose first character is whitespace; otherwise it returns an envelope
(for an array, head and tail; for a non-empty string, first character
and remaining characters). -/
theorem c3_decode_error_iff (line : String) :
    exceptIsErr (decodeLine line) = amendedC3Malformed line := by
  unfold decodeLine amendedC3Malformed
  cases hl : loads (pyRstrip line) with
  | none => rfl
  | some j =>
    cases j with
    | null => rfl
    | bool b => rfl
    | num n => rfl
    | str s =>
      cases hsd : s.data with
      | nil => simp [splitEnvelope, hsd, exceptIsErr]
      | cons c cs =>
        by_cases hc : pyStrip (String.mk [c]) = ""
        · simp [splitEnvelope, hsd, hc, exceptIsErr]
        · simp [splitEnvelope, hsd, hc, exceptIsErr]
    | arr xs =>
      cases xs with
      | nil => rfl
      | cons k krest =>
        cases k with
        | str ks =>
          by_cases hk : pyStrip ks = ""
          · simp [splitEnvelope, hk, exceptIsErr]
          · simp [splitEnvelope, hk, exceptIsErr]
        | null => rfl
        | bool b => rfl
        | num n => rfl
        | arr ys => rfl
        | obj ms => rfl
    | obj ms =>
      cases ms with
      | nil => rfl
      | cons m mm => rfl

/-- C4: for every decode selector other than None and "json",
`receive_message` fails with the unknown-decoder error before any
blocking read: no line is consumed and the inbound stream is returned
unchanged. -/
theorem c4_unknown_decoder_no_read (d : String) (stream : List String) (hd : d ≠ "json") :
    receive_message (some d) stream = (Except.error (PyErr.unknownDecoder d), stream) := by
  simp [receive_message, hd]

/-- C4 witness: decode selector "xml" with a pending message line. -/
theorem c4_unknown_decoder_no_read_witness :
    ("xml" : String) ≠ "json" ∧
      receive_message (some "xml") [msgLine] =
        (Except.error (PyErr.unknownDecoder "xml"), [msgLine]) :=
  ⟨by decide, c4_unknown_decoder_no_read "xml" [msgLine] (by decide)⟩

/-- C5: an inbound `["message", ...]` envelope whose payload length is
not exactly one makes `receive_message` fail with the payload-shape
assertion instead of returning content; the check runs before any
content is returned. -/
theorem c5_unexpected_payload_shape (payload : List Json) (rest : List String)
    (h : payload.length ≠ 1) :
    receive_message none ((dumps (Json.arr (Json.str "message" :: payload)) ++ "\n") :: rest) =
      (Except.error PyErr.unexpectedPayloadShape, rest) := by
  have hpe : payloadExtract (Json.arr payload) = .error .unexpectedPayloadShape := by
    match payload, h with
    | [], _ => rfl
    | [x], hx => exact absurd rfl hx
    | x :: y :: t, _ => rfl
  have hdec : decodeLine (dumps (Json.arr (Json.str "message" :: payload)) ++ "\n") =
      .ok ("message", Json.arr payload) := by
    rw [decodeLine_dumps]
    rfl
  show recvLoop ((dumps (Json.arr (Json.str "message" :: payload)) ++ "\n") :: rest) = _
  simp only [recvLoop]
  rw [hdec]
  show (payloadExtract (Json.arr payload), rest) = _
  rw [hpe]

/-- C5 witness: a `["message"]` envelope with empty payload. -/
theorem c5_unexpected_payload_shape_witness :
    ([] : List Json).length ≠ 1 ∧
      receive_message none [dumps (Json.arr [Json.str "message"]) ++ "\n"] =
        (Except.error PyErr.unexpectedPayloadShape, []) :=
  ⟨by decide, c5_unexpected_payload_shape [] [] (by decide)⟩

/-- C6: `send_result({"a": [1, 2, 3]}, encode="json")` writes one line
whose decoded envelope is `["result", "{\"a\": [1, 2, 3]}"]`: the
payload element is the JSON text of the result as a string — serialized
once by the encoder and once more by the envelope framing — not a
nested structure. -/
theorem c6_json_double_encoding :
    send_result (Json.obj [("a", Json.arr [Json.num 1, Json.num 2, Json.num 3])])
        (some "json") [] =
      (Except.ok (), ["[\"result\", \"\x7b\\\"a\\\": [1, 2, 3]\x7d\"]", "\n"]) ∧
    decodeLine ("[\"result\", \"\x7b\\\"a\\\": [1, 2, 3]\x7d\"]" ++ "\n") =
      Except.ok ("result", Json.arr [Json.str "\x7b\"a\": [1, 2, 3]\x7d"]) := by
  have hr : dumps (Json.obj [("a", Json.arr [Json.num 1, Json.num 2, Json.num 3])]) =
      "\x7b\"a\": [1, 2, 3]\x7d" := by
    simp [dumps, printJ, printElems, printMems, strChars, escList, escChar, intChars,
      natChars, natCharsAux, digitCh]
    rfl
  have hdump : dumps (Json.arr [Json.str "result", Json.str "\x7b\"a\": [1, 2, 3]\x7d"]) =
      "[\"result\", \"\x7b\\\"a\\\": [1, 2, 3]\x7d\"]" := by
    simp [dumps, printJ, printElems, printMems, strChars, escList, escChar, intChars,
      natChars, natCharsAux, digitCh]
  refine ⟨?_, rfl⟩
  show (Except.ok (),
      [dumps (Json.arr [Json.str "result",
        Json.str (dumps (Json.obj [("a", Json.arr [Json.num 1, Json.num 2, Json.num 3])]))]),
       "\n"]) = _
  rw [hr, hdump]

/-- C7: for every encode selector other than None and "json",
`send_result` fails with the unknown-encoder error synchronously: no
serialization result is sent and the outbound stream is unchanged. -/
theorem c7_unknown_encoder_no_write (e : String) (result : Json) (out : List String)
    (he : e ≠ "json") :
    send_result result (some e) out = (Except.error (PyErr.unknownEncoder e), out) := by
  simp [send_result, he]

/-- C7 witness: encode selector "xml" with a non-empty outbound stream. -/
theorem c7_unknown_encoder_no_write_witness :
    ("xml" : String) ≠ "json" ∧
      send_result (Json.str "r") (some "xml") ["x"] =
        (Except.error (PyErr.unknownEncoder "xml"), ["x"]) :=
  ⟨by decide, c7_unknown_encoder_no_write "xml" (Json.str "r") ["x"] (by decide)⟩

/-- C8: for every number of concurrent sender calls, in every complete
execution of the lock-protected send protocol (all threads done,
starting from the initial state) the outbound stream is the
concatenation of one complete newline-terminated line per call, in lock
acquisition order over some permutation of the threads — it never
contains interleaved or concatenated partial envelopes. -/
theorem c8_no_interleaving (n : Nat) (lines : Fin n → String) (s : SendSt n)
    (hreach : Relation.ReflTransGen (SendStep n lines) (initSendSt n) s)
    (hdone : ∀ i, s.phase i = SPhase.done) :
    ∃ ord : List (Fin n), List.Perm ord (List.finRange n) ∧
      s.out = (ord.map (fun i => [lines i, "\n"])).flatten := by
  obtain ⟨ord, hnd, hdn, hlk, hout⟩ := sendInv_reach n lines s hreach
  refine ⟨ord, ?_, ?_⟩
  · refine (List.perm_ext_iff_of_nodup hnd (List.nodup_finRange n)).mpr ?_
    intro a
    simp [List.mem_finRange, hdn a, hdone a]
  · have hpc : partialChunks n lines s = [] := by
      match hl : s.lock with
      | none => simp [partialChunks, hl]
      | some i =>
        rcases hlk i hl with hph | hph | hph <;>
          exact absurd (hph.symm.trans (hdone i)) (by decide)
    rw [hout, hpc, List.append_nil]

/-- C8 witness: two sequentially scheduled sender threads, one
heartbeat and one result. -/
theorem c8_no_interleaving_witness :
    ∃ ord : List (Fin 2), List.Perm ord (List.finRange 2) ∧
      c8S8.out = (ord.map (fun i => [c8Lines i, "\n"])).flatten := by
  apply c8_no_interleaving 2 c8Lines c8S8 ?_ ?_
  · exact Relation.ReflTransGen.head (SendStep.acquire c8S0 0 rfl rfl)
      (Relation.ReflTransGen.head (SendStep.writeMsg c8S1 0 rfl rfl)
        (Relation.ReflTransGen.head (SendStep.writeNl c8S2 0 rfl rfl)
          (Relation.ReflTransGen.head (SendStep.release c8S3 0 rfl rfl)
            (Relation.ReflTransGen.head (SendStep.acquire c8S4 1 rfl rfl)
              (Relation.ReflTransGen.head (SendStep.writeMsg c8S5 1 rfl rfl)
                (Relation.ReflTransGen.head (SendStep.writeNl c8S6 1 rfl rfl)
                  (Relation.ReflTransGen.single (SendStep.release c8S7 1 rfl rfl))))))))
  · intro i
    fin_cases i <;> rfl

/-- C9 (implicit): `send_result` with encode=None performs no type
check: every JSON-representable value — dict, list, number, boolean,
null, not only strings — is accepted and embedded as-is as the single
payload element of `["result", result]`, serialized exactly once by the
envelope framing; decoding the produced line returns it unchanged. -/
theorem c9_send_result_no_type_check (result : Json) (out : List String) :
    send_result result none out =
      (Except.ok (), out ++ [dumps (Json.arr [Json.str "result", result]), "\n"]) ∧
    decodeLine (dumps (Json.arr [Json.str "result", result]) ++ "\n") =
      Except.ok ("result", Json.arr [result]) := by
  refine ⟨rfl, ?_⟩
  rw [decodeLine_dumps]
  rfl

/-- C10 (implicit): keyword dispatch is exact string equality with
`"message"`: an envelope whose keyword is `" message "` passes envelope
validation (non-empty after trimming), but `receive_message` silently
discards it without validating or returning its payload, and dispatch
continues with the rest of the stream. -/
theorem c10_keyword_exact_match (payload : List Json) (rest : List String) :
    decodeLine (dumps (Json.arr (Json.str " message " :: payload)) ++ "\n") =
      Except.ok (" message ", Json.arr payload) ∧
    receive_message none ((dumps (Json.arr (Json.str " message " :: payload)) ++ "\n") :: rest) =
      receive_message none rest := by
  have hd : decodeLine (dumps (Json.arr (Json.str " message " :: payload)) ++ "\n") =
      Except.ok (" message ", Json.arr payload) := by
    rw [decodeLine_dumps]
    rfl
  refine ⟨hd, ?_⟩
  show recvLoop ((dumps (Json.arr (Json.str " message " :: payload)) ++ "\n") :: rest) =
    recvLoop rest
  simp only [recvLoop]
  rw [hd]
  rfl
